import Mathlib

/-!
Verification of the story-chapter progress data model and binary codec of
BCSFE-Python (`src/bcsfe/core/game/map/story.py`) together with the tabular
text parser (`src/bcsfe/core/io/bc_csv.py`).

The Python classes are embedded shallowly: objects become structures, in-place
mutation becomes functional update, the byte-stream cursor becomes the list of
not-yet-consumed bytes, and fallible reads return `Option`.
-/

namespace BCSFE

set_option autoImplicit false

/-- Update of the list element at index `i` (no-op when the index is out of
range), modelling in-place mutation of a Python list element. -/
def listModify {α : Type} (f : α → α) : Nat → List α → List α
  | _, [] => []
  | 0, a :: l => f a :: l
  | n + 1, a :: l => a :: listModify f n l

/-- A stage of a story chapter, from class `Stage` in `story.py`:
`clear_times` counts clears, `treasure` is the reward level and
`itf_timed_score` the optional timed score. -/
structure Stage where
  clear_times : Int
  treasure : Int
  itf_timed_score : Int
deriving DecidableEq

/-- Fresh stage, from `Stage.init()` (`Stage(0)`; `__init__` zeroes the other
fields). -/
def Stage.init : Stage := ⟨0, 0, 0⟩

/-- Operation `Stage.clear_stage(increase)`. -/
def Stage.clear_stage (s : Stage) (increase : Bool) : Stage :=
  if increase then { s with clear_times := s.clear_times + 1 }
  else { s with clear_times := max s.clear_times 1 }

/-- Operation `Stage.unclear_stage()`. -/
def Stage.unclear_stage (s : Stage) : Stage := { s with clear_times := 0 }

/-- Predicate `Stage.is_cleared()` (`clear_times > 0`). -/
def Stage.is_cleared (s : Stage) : Bool := decide (0 < s.clear_times)

/-- Operation `Stage.set_treasure(treasure)`. -/
def Stage.set_treasure (s : Stage) (treasure : Int) : Stage :=
  { s with treasure := treasure }

/-- A story chapter, from class `Chapter` in `story.py`. -/
structure Chapter where
  selected_stage : Int
  progress : Int
  stages : List Stage
  time_until_treasure_chance : Int
  treasure_chance_duration : Int
  treasure_chance_value : Int
  treasure_chance_stage_id : Int
  treasure_festival_type : Int
deriving DecidableEq

/-- Constructor `Chapter(selected_stage)`: 51 fresh stages, everything else
zero. -/
def Chapter.new (selected_stage : Int) : Chapter :=
  { selected_stage := selected_stage
    progress := 0
    stages := List.replicate 51 Stage.init
    time_until_treasure_chance := 0
    treasure_chance_duration := 0
    treasure_chance_value := 0
    treasure_chance_stage_id := 0
    treasure_festival_type := 0 }

/-- Static method `Chapter.init()` (`Chapter(0)`). -/
def Chapter.initChapter : Chapter := Chapter.new 0

/-- Operation `Chapter.clear_stage(stage_id, increase, overwrite_progress)`. -/
def Chapter.clear_stage (ch : Chapter) (stage_id : Nat)
    (increase overwrite_progress : Bool) : Chapter :=
  { ch with
    stages := listModify (Stage.clear_stage · increase) stage_id ch.stages
    progress :=
      if overwrite_progress then (stage_id : Int)
      else max ch.progress ((stage_id : Int) + 1) }

/-- Operation `Chapter.set_treasure(stage_id, treasure)`. -/
def Chapter.set_treasure (ch : Chapter) (stage_id : Nat) (treasure : Int) :
    Chapter :=
  { ch with stages := listModify (Stage.set_treasure · treasure) stage_id ch.stages }

/-- Slice `Chapter.get_treasure_stages()` (`stages[:49]`). -/
def Chapter.get_treasure_stages (ch : Chapter) : List Stage := ch.stages.take 49

/-- Slice `Chapter.get_valid_treasure_stages()` (`stages[:48]`). -/
def Chapter.get_valid_treasure_stages (ch : Chapter) : List Stage :=
  ch.stages.take 48

/-- Operation `Chapter.apply_progress(progress)`: sets `progress`, unclears
the stages of `range(progress + 1, 48)` and clears those of
`range(progress)`. -/
def Chapter.apply_progress (ch : Chapter) (progress : Nat) : Chapter :=
  let st1 := (List.range' (progress + 1) (48 - (progress + 1))).foldl
    (fun acc i => listModify Stage.unclear_stage i acc) ch.stages
  let st2 := (List.range progress).foldl
    (fun acc i => listModify (Stage.clear_stage · false) i acc) st1
  { ch with progress := (progress : Int), stages := st2 }

/-- Operation `Chapter.clear_chapter()` (`apply_progress(48)`). -/
def Chapter.clear_chapter (ch : Chapter) : Chapter := ch.apply_progress 48

/-- Observable content of the `dict` consumed by `Stage.deserialize`: each key
is read with `.get(key, 0)`, and a missing key behaves exactly like the
default value, so the fields are plain values here. -/
structure StageData where
  clear_times : Int
  treasure : Int
  itf_timed_score : Int
deriving DecidableEq

/-- Static method `Stage.deserialize(data)`. -/
def Stage.deserialize (d : StageData) : Stage :=
  ⟨d.clear_times, d.treasure, d.itf_timed_score⟩

/-- Observable content of the `dict` consumed by `Chapter.deserialize`
(defaults: zero scalars and an empty `stages` list). -/
structure ChapterData where
  selected_stage : Int
  progress : Int
  stages : List StageData
  time_until_treasure_chance : Int
  treasure_chance_duration : Int
  treasure_chance_value : Int
  treasure_chance_stage_id : Int
  treasure_festival_type : Int
deriving DecidableEq

/-- Content of the dict `{}`: every `.get` falls back to its default. -/
def ChapterData.empty : ChapterData := ⟨0, 0, [], 0, 0, 0, 0, 0⟩

/-- Static method `Chapter.deserialize(data)`: the stage list is rebuilt from
whatever list the data holds. -/
def Chapter.deserialize (d : ChapterData) : Chapter :=
  { selected_stage := d.selected_stage
    progress := d.progress
    stages := d.stages.map Stage.deserialize
    time_until_treasure_chance := d.time_until_treasure_chance
    treasure_chance_duration := d.treasure_chance_duration
    treasure_chance_value := d.treasure_chance_value
    treasure_chance_stage_id := d.treasure_chance_stage_id
    treasure_festival_type := d.treasure_festival_type }

/-- The chapter-group container, from class `StoryChapters` in `story.py`. -/
structure StoryChapters where
  chapters : List Chapter
deriving DecidableEq

/-- Loop body of `get_real_chapters`: walk the enumerated chapter list and
skip index 3. -/
def getRealAux : Nat → List Chapter → List Chapter
  | _, [] => []
  | i, c :: rest =>
    if i = 3 then getRealAux (i + 1) rest
    else c :: getRealAux (i + 1) rest

/-- Method `StoryChapters.get_real_chapters()`: all chapters except the one at
index 3, in order. -/
def StoryChapters.get_real_chapters (sc : StoryChapters) : List Chapter :=
  getRealAux 0 sc.chapters

/-- Static method `StoryChapters.init()`: ten fresh chapters. -/
def StoryChapters.initStory : StoryChapters :=
  ⟨List.replicate 10 Chapter.initChapter⟩

/-- Static method `StoryChapters.deserialize(data)`. -/
def StoryChapters.deserialize (d : List ChapterData) : StoryChapters :=
  ⟨d.map Chapter.deserialize⟩

/-- Raw index in the ten-chapter list aliased by index `r` of the list
returned by `get_real_chapters`, which skips raw index 3. -/
def realToRaw (r : Nat) : Nat := if r < 3 then r else r + 1

/-- Effect of `chapters[r].clear_chapter()` where `chapters` is the aliased
view returned by `get_real_chapters`: the underlying chapter at raw index
`realToRaw r` is mutated. -/
def StoryChapters.clearRealChapter (sc : StoryChapters) (r : Nat) :
    StoryChapters :=
  ⟨listModify Chapter.clear_chapter (realToRaw r) sc.chapters⟩

/-- Method `StoryChapters.clear_previous_chapters(chapter_id)`: the if/elif
chain of `story.py` lines 433-458, each branch clearing prerequisite chapters
through the `get_real_chapters` view. -/
def StoryChapters.clear_previous_chapters (sc : StoryChapters)
    (chapter_id : Int) : StoryChapters :=
  if chapter_id = 1 then sc.clearRealChapter 0
  else if chapter_id = 2 then (sc.clearRealChapter 0).clearRealChapter 1
  else if chapter_id = 3 then sc.clearRealChapter 0
  else if chapter_id = 4 then (sc.clearRealChapter 0).clearRealChapter 3
  else if chapter_id = 5 then
    ((sc.clearRealChapter 0).clearRealChapter 3).clearRealChapter 4
  else if chapter_id = 6 then (sc.clearRealChapter 0).clearRealChapter 3
  else if chapter_id = 7 then
    ((sc.clearRealChapter 0).clearRealChapter 3).clearRealChapter 6
  else if chapter_id = 8 then
    (((sc.clearRealChapter 0).clearRealChapter 3).clearRealChapter 6).clearRealChapter 7
  else sc

/-- Static method `StoryChapters.convert_stage_id(index)`. -/
def StoryChapters.convert_stage_id (index : Int) : Int :=
  if index = 46 then 46
  else if index = 47 then 47
  else 45 - index

/-- Prerequisite table stated by the claim (indices into the 9 real
chapters): the set of real chapters that `clear_previous_chapters(cid)` must
fully clear. -/
def prereqList (cid : Int) : List Nat :=
  if cid = 1 then [0]
  else if cid = 2 then [0, 1]
  else if cid = 3 then [0]
  else if cid = 4 then [0, 3]
  else if cid = 5 then [0, 3, 4]
  else if cid = 6 then [0, 3]
  else if cid = 7 then [0, 3, 6]
  else if cid = 8 then [0, 3, 6, 7]
  else []

/-! Byte-stream model. The reader/writer class `core.Data` (`io/data.py`) is
not among the sources, so it is modelled from the spec, section 4.1: typed
reads consume exactly the encoded width and fail past the end, writes append.
A read stream is the list of not-yet-consumed bytes. -/

/-- Reinterpretation of a value in `[0, 2^32)` as a signed 32-bit integer. -/
def toSigned32 (u : Nat) : Int :=
  if u < 2147483648 then (u : Int) else (u : Int) - 4294967296

/-- Modelled from the spec: `core.Data.read_int` consumes four bytes in the
stream's fixed endianness (little-endian here) and returns the signed 32-bit
value; fewer than four remaining bytes is an out-of-bounds failure. -/
def readInt : List Nat → Option (Int × List Nat)
  | b0 :: b1 :: b2 :: b3 :: rest =>
    some (toSigned32 (b0 + 256 * b1 + 65536 * b2 + 16777216 * b3), rest)
  | _ => none

/-- Modelled from the spec: `core.Data.write_int` appends the four
little-endian bytes of the value reduced to 32 bits. -/
def writeInt (v : Int) : List Nat :=
  [(v % 4294967296).toNat % 256,
   (v % 4294967296).toNat / 256 % 256,
   (v % 4294967296).toNat / 65536 % 256,
   (v % 4294967296).toNat / 16777216 % 256]

/-- Static method `Stage.read_clear_times(stream)` (`Stage(read_int())`). -/
def Stage.read_clear_times (s : List Nat) : Option (Stage × List Nat) :=
  match readInt s with
  | none => none
  | some (v, rest) => some (⟨v, 0, 0⟩, rest)

/-- Operation `Stage.read_treasure(stream)`. -/
def Stage.read_treasure (st : Stage) (s : List Nat) :
    Option (Stage × List Nat) :=
  match readInt s with
  | none => none
  | some (v, rest) => some ({ st with treasure := v }, rest)

/-- List comprehension `[Stage.read_clear_times(stream) for _ in range(n)]`. -/
def readStagesClearTimes : Nat → List Nat → Option (List Stage × List Nat)
  | 0, s => some ([], s)
  | n + 1, s =>
    match Stage.read_clear_times s with
    | none => none
    | some (st, s1) =>
      match readStagesClearTimes n s1 with
      | none => none
      | some (sts, s2) => some (st :: sts, s2)

/-- Loop `for stage in stages: stage.read_treasure(stream)` over a stage
list. -/
def readTreasureList : List Stage → List Nat → Option (List Stage × List Nat)
  | [], s => some ([], s)
  | st :: rest, s =>
    match st.read_treasure s with
    | none => none
    | some (st1, s1) =>
      match readTreasureList rest s1 with
      | none => none
      | some (sts, s2) => some (st1 :: sts, s2)

/-- Static method `Chapter.read_selected_stage(stream)`
(`Chapter(read_int())`). -/
def Chapter.read_selected_stage (s : List Nat) : Option (Chapter × List Nat) :=
  match readInt s with
  | none => none
  | some (v, rest) => some (Chapter.new v, rest)

/-- Operation `Chapter.read_progress(stream)`. -/
def Chapter.read_progress (ch : Chapter) (s : List Nat) :
    Option (Chapter × List Nat) :=
  match readInt s with
  | none => none
  | some (v, rest) => some ({ ch with progress := v }, rest)

/-- Operation `Chapter.read_clear_times(stream)`: replaces the stage list
with 51 freshly decoded stages. -/
def Chapter.read_clear_times (ch : Chapter) (s : List Nat) :
    Option (Chapter × List Nat) :=
  match readStagesClearTimes 51 s with
  | none => none
  | some (sts, rest) => some ({ ch with stages := sts }, rest)

/-- Operation `Chapter.read_treasure(stream)`: decodes one treasure value
into each of `get_treasure_stages()` (the first 49 stages, mutated in
place). -/
def Chapter.read_treasure (ch : Chapter) (s : List Nat) :
    Option (Chapter × List Nat) :=
  match readTreasureList ch.get_treasure_stages s with
  | none => none
  | some (sts, rest) =>
    some ({ ch with stages := sts ++ ch.stages.drop 49 }, rest)

/-- Pass `[Chapter.read_selected_stage(stream) for _ in range(n)]`. -/
def readSelectedPass : Nat → List Nat → Option (List Chapter × List Nat)
  | 0, s => some ([], s)
  | n + 1, s =>
    match Chapter.read_selected_stage s with
    | none => none
    | some (c, s1) =>
      match readSelectedPass n s1 with
      | none => none
      | some (cs, s2) => some (c :: cs, s2)

/-- Pass `for chapter in chapters: chapter.read_progress(stream)`. -/
def readProgressPass : List Chapter → List Nat →
    Option (List Chapter × List Nat)
  | [], s => some ([], s)
  | c :: cs, s =>
    match c.read_progress s with
    | none => none
    | some (c1, s1) =>
      match readProgressPass cs s1 with
      | none => none
      | some (cs1, s2) => some (c1 :: cs1, s2)

/-- Pass `for chapter in chapters: chapter.read_clear_times(stream)`. -/
def readClearTimesPass : List Chapter → List Nat →
    Option (List Chapter × List Nat)
  | [], s => some ([], s)
  | c :: cs, s =>
    match c.read_clear_times s with
    | none => none
    | some (c1, s1) =>
      match readClearTimesPass cs s1 with
      | none => none
      | some (cs1, s2) => some (c1 :: cs1, s2)

/-- Pass `for chapter in chapters: chapter.read_treasure(stream)`. -/
def readTreasurePass : List Chapter → List Nat →
    Option (List Chapter × List Nat)
  | [], s => some ([], s)
  | c :: cs, s =>
    match c.read_treasure s with
    | none => none
    | some (c1, s1) =>
      match readTreasurePass cs s1 with
      | none => none
      | some (cs1, s2) => some (c1 :: cs1, s2)

/-- Static method `StoryChapters.read(stream)`: ten chapters, decoded in four
column-major passes. -/
def StoryChapters.read (s : List Nat) : Option (StoryChapters × List Nat) :=
  match readSelectedPass 10 s with
  | none => none
  | some (cs, s1) =>
    match readProgressPass cs s1 with
    | none => none
    | some (cs2, s2) =>
      match readClearTimesPass cs2 s2 with
      | none => none
      | some (cs3, s3) =>
        match readTreasurePass cs3 s3 with
        | none => none
        | some (cs4, s4) => some (⟨cs4⟩, s4)

/-- Method `Chapter.write_clear_times(stream)`: one int per stage, as the
bytes it appends. -/
def Chapter.write_clear_times (ch : Chapter) : List Nat :=
  (ch.stages.map (fun st => writeInt st.clear_times)).flatten

/-- Method `Chapter.write_treasure(stream)`: one int per treasure stage. -/
def Chapter.write_treasure (ch : Chapter) : List Nat :=
  (ch.get_treasure_stages.map (fun st => writeInt st.treasure)).flatten

/-- Method `StoryChapters.write(stream)`: the bytes appended by the four
column-major write passes. -/
def StoryChapters.write (sc : StoryChapters) : List Nat :=
  (sc.chapters.map (fun c => writeInt c.selected_stage)).flatten ++
  (sc.chapters.map (fun c => writeInt c.progress)).flatten ++
  (sc.chapters.map Chapter.write_clear_times).flatten ++
  (sc.chapters.map Chapter.write_treasure).flatten

/-! Reference decoder for claim C3, following the words of the spec rather
than the code: the base read consumes, in order, the `selected_stage` of all
ten chapters, the `progress` of all ten chapters, 51 per-stage `clear_times`
for each of the ten chapters, and a `treasure` value for the first 49 stages
of each of the ten chapters; nothing else. -/

/-- Read of `n` consecutive 32-bit integers. -/
def readIntList : Nat → List Nat → Option (List Int × List Nat)
  | 0, s => some ([], s)
  | n + 1, s =>
    match readInt s with
    | none => none
    | some (v, s1) =>
      match readIntList n s1 with
      | none => none
      | some (vs, s2) => some (v :: vs, s2)

/-- Read of `m` consecutive blocks of `n` integers each. -/
def readIntBlocks : Nat → Nat → List Nat → Option (List (List Int) × List Nat)
  | 0, _, s => some ([], s)
  | m + 1, n, s =>
    match readIntList n s with
    | none => none
    | some (vs, s1) =>
      match readIntBlocks m n s1 with
      | none => none
      | some (bs, s2) => some (vs :: bs, s2)

/-- Stage freshly decoded from a clear-times value (`Stage(read_int())`). -/
def stageOfClear (v : Int) : Stage := ⟨v, 0, 0⟩

/-- Stage holding a decoded clear-times and treasure value. -/
def stageOfClearTreasure (c t : Int) : Stage := ⟨c, t, 0⟩

/-- Effect of `chapter.read_progress` on the chapter, given the decoded
value. -/
def setProgress (c : Chapter) (v : Int) : Chapter := { c with progress := v }

/-- Effect of `chapter.read_clear_times` on the chapter, given the decoded
values. -/
def setStages (c : Chapter) (l : List Int) : Chapter :=
  { c with stages := l.map stageOfClear }

/-- Effect of `stage.read_treasure` on the stage, given the decoded value. -/
def setStageTreasure (st : Stage) (v : Int) : Stage :=
  { st with treasure := v }

/-- Effect of `chapter.read_treasure` on the chapter, given the decoded
values. -/
def setTreasures (c : Chapter) (l : List Int) : Chapter :=
  { c with stages :=
      List.zipWith setStageTreasure (c.stages.take 49) l ++ c.stages.drop 49 }

/-- Stage list of a chapter as the spec describes it after the base read:
clear times for all 51 stages, treasure on the first 49 only, timed scores
untouched (zero). -/
def specStages (cts trs : List Int) : List Stage :=
  List.zipWith stageOfClearTreasure (cts.take 49) trs
    ++ (cts.drop 49).map stageOfClear

/-- Chapter assembled from one column of each pass; every field the base read
does not consume stays at its default. -/
def specChapter (sel prog : Int) (cts trs : List Int) : Chapter :=
  { selected_stage := sel
    progress := prog
    stages := specStages cts trs
    time_until_treasure_chance := 0
    treasure_chance_duration := 0
    treasure_chance_value := 0
    treasure_chance_stage_id := 0
    treasure_festival_type := 0 }

/-- Reference decoder written from the spec's words (see the section comment
above). -/
def specReadColumnMajor (s : List Nat) : Option (StoryChapters × List Nat) :=
  match readIntList 10 s with
  | none => none
  | some (sel, s1) =>
    match readIntList 10 s1 with
    | none => none
    | some (prog, s2) =>
      match readIntBlocks 10 51 s2 with
      | none => none
      | some (cts, s3) =>
        match readIntBlocks 10 49 s3 with
        | none => none
        | some (trs, s4) =>
          some (⟨((sel.zip prog).zip (cts.zip trs)).map
            (fun p => specChapter p.1.1 p.1.2 p.2.1 p.2.2)⟩, s4)

/-! Tabular text parser, from `bc_csv.py`. Text is modelled as `List Char`;
the delimiter is a single character (comma, tab or pipe). The inputs of
interest carry no quoting, so the `csv.reader` row is the line split at the
delimiter, and the subsequent `delimiter.join(row)` restores the line. -/

/-- Whitespace stripped by Python `str.strip()`. -/
def pyIsSpace (c : Char) : Bool :=
  c == ' ' || c == '\t' || c == '\n' || c == '\r' || c == '\x0b' || c == '\x0c'

/-- Python `str.strip()`: leading and trailing whitespace removed. -/
def pyStrip (l : List Char) : List Char :=
  ((l.dropWhile pyIsSpace).reverse.dropWhile pyIsSpace).reverse

/-- Python `str.split(d)` for a one-character separator: always at least one
field, empty fields preserved. -/
def splitOnChar (d : Char) : List Char → List (List Char)
  | [] => [[]]
  | c :: rest =>
    match splitOnChar d rest with
    | [] => [[]]
    | r :: rs => if c = d then [] :: r :: rs else (c :: r) :: rs

/-- Python `d.join(fields)` for a one-character separator. -/
def joinWithChar (d : Char) : List (List Char) → List Char
  | [] => []
  | [x] => x
  | x :: xs => x ++ d :: joinWithChar d xs

/-- Python `s.split("//")[0]`: everything before the first comment marker. -/
def dropComment : List Char → List Char
  | '/' :: '/' :: _ => []
  | c :: rest => c :: dropComment rest
  | [] => []

/-- Python `str.splitlines()` restricted to the terminators occurring here:
splits at `\r\n`, `\r` or `\n`, with no empty line after a trailing
terminator. -/
def splitLines : List Char → List (List Char)
  | [] => []
  | '\r' :: '\n' :: rest => [] :: splitLines rest
  | '\r' :: rest => [] :: splitLines rest
  | '\n' :: rest => [] :: splitLines rest
  | c :: rest =>
    match splitLines rest with
    | [] => [[c]]
    | l :: ls => (c :: l) :: ls

/-- Method `CSV.parse()`: per line of the text, split at the delimiter,
rejoin, strip the `//` comment when comments are removed, split again, strip
each cell, and keep non-empty cells and rows when empties are removed. The
result is the rows' cell texts (`lines`, each cell a `Data` wrapping the
stripped text). -/
def CSVparse (d : Char) (remove_comments remove_empty : Bool)
    (text : List Char) : List (List (List Char)) :=
  (splitLines text).foldl (fun lines line =>
    let row := splitOnChar d line
    let full_row := joinWithChar d row
    let full_row2 := if remove_comments then dropComment full_row else full_row
    let row2 := splitOnChar d full_row2
    if !row2.isEmpty || !remove_empty then
      let new_row := (row2.map pyStrip).filter
        (fun item => !item.isEmpty || !remove_empty)
      if !new_row.isEmpty || !remove_empty then lines ++ [new_row] else lines
    else lines) []

/-- String form `str(cell)` used by `to_data`: `Cell.__str__` returns the
repr `Cell(<data>)` (`bc_csv.py` lines 45-49). Modelled from the spec for the
inner text: the class `Data` is not among the sources and a cell wraps raw
text, so the data's string form is modelled as that raw text; any other
string form exhibits the same `Cell(...)` wrapper. -/
def cellStr (cell : List Char) : List Char :=
  'C' :: 'e' :: 'l' :: 'l' :: '(' :: (cell ++ [')'])

/-- Method `CSV.to_data()`: for each row the cells' string forms joined with
the delimiter, each row terminated by CRLF. -/
def CSVtoData (d : Char) (lines : List (List (List Char))) : List Char :=
  (lines.map (fun line =>
    joinWithChar d (line.map cellStr) ++ ['\r', '\n'])).flatten

/-! Lemmas about `listModify` and index folds. -/

theorem length_listModify {α : Type} (f : α → α) (i : Nat) (l : List α) :
    (listModify f i l).length = l.length := by
  induction l generalizing i with
  | nil => cases i <;> rfl
  | cons a l ih => cases i <;> simp [listModify, ih]

theorem getD_listModify_ne {α : Type} (f : α → α) (j i : Nat) (l : List α)
    (d : α) (h : i ≠ j) : (listModify f j l).getD i d = l.getD i d := by
  induction l generalizing i j with
  | nil => cases j <;> rfl
  | cons a l ih =>
    cases j with
    | zero =>
      cases i with
      | zero => exact absurd rfl h
      | succ i => simp [listModify]
    | succ j =>
      cases i with
      | zero => simp [listModify]
      | succ i =>
        simp only [listModify, List.getD_cons_succ]
        exact ih j i (fun hij => h (by omega))

theorem getD_listModify_self {α : Type} (f : α → α) (i : Nat) (l : List α)
    (d : α) (h : i < l.length) :
    (listModify f i l).getD i d = f (l.getD i d) := by
  induction l generalizing i with
  | nil => simp at h
  | cons a l ih =>
    cases i with
    | zero => simp [listModify]
    | succ i =>
      simp only [listModify, List.getD_cons_succ]
      exact ih i (by simpa using h)

theorem length_foldl_listModify {α : Type} (f : α → α) (idxs : List Nat)
    (l : List α) :
    (idxs.foldl (fun acc j => listModify f j acc) l).length = l.length := by
  induction idxs generalizing l with
  | nil => rfl
  | cons j rest ih => simp [List.foldl_cons, ih, length_listModify]

theorem getD_foldl_listModify_not_mem {α : Type} (f : α → α)
    (idxs : List Nat) (l : List α) (i : Nat) (d : α) (h : i ∉ idxs) :
    (idxs.foldl (fun acc j => listModify f j acc) l).getD i d = l.getD i d := by
  induction idxs generalizing l with
  | nil => rfl
  | cons j rest ih =>
    simp only [List.foldl_cons]
    rw [ih _ (fun hm => h (List.mem_cons_of_mem _ hm)),
      getD_listModify_ne _ _ _ _ _
        (fun hij => h (by rw [hij]; exact List.mem_cons_self _ _))]

theorem getD_foldl_listModify_mem {α : Type} (f : α → α) (idxs : List Nat)
    (l : List α) (i : Nat) (d : α) (h : i ∈ idxs) (hnd : idxs.Nodup)
    (hlen : i < l.length) :
    (idxs.foldl (fun acc j => listModify f j acc) l).getD i d
      = f (l.getD i d) := by
  induction idxs generalizing l with
  | nil => simp at h
  | cons j rest ih =>
    simp only [List.foldl_cons]
    rcases List.mem_cons.mp h with rfl | hm
    · rw [getD_foldl_listModify_not_mem _ _ _ _ _ (List.Nodup.not_mem hnd),
        getD_listModify_self _ _ _ _ hlen]
    · rw [ih _ hm (List.Nodup.of_cons hnd) (by rwa [length_listModify]),
        getD_listModify_ne]
      intro hij
      exact (List.Nodup.not_mem hnd) (hij ▸ hm)

theorem getD_listModify_proj {α β : Type} (g : α → β) (f : α → α)
    (hf : ∀ a, g (f a) = g a) (j i : Nat) (l : List α) (d : α) :
    g ((listModify f j l).getD i d) = g (l.getD i d) := by
  rcases Nat.lt_or_ge i l.length with hlt | hge
  · rcases eq_or_ne i j with rfl | hne
    · rw [getD_listModify_self _ _ _ _ hlt, hf]
    · rw [getD_listModify_ne _ _ _ _ _ hne]
  · rw [List.getD_eq_default _ _ (by rwa [length_listModify]),
      List.getD_eq_default _ _ hge]

theorem getD_foldl_listModify_proj {α β : Type} (g : α → β) (f : α → α)
    (hf : ∀ a, g (f a) = g a) (idxs : List Nat) (l : List α) (i : Nat)
    (d : α) :
    g ((idxs.foldl (fun acc j => listModify f j acc) l).getD i d)
      = g (l.getD i d) := by
  induction idxs generalizing l with
  | nil => rfl
  | cons j rest ih =>
    simp only [List.foldl_cons]
    rw [ih, getD_listModify_proj _ _ hf]

/-! Elementwise characterization of `apply_progress`. -/

theorem apply_progress_progress (ch : Chapter) (p : Nat) :
    (ch.apply_progress p).progress = (p : Int) := rfl

theorem apply_progress_length (ch : Chapter) (p : Nat) :
    (ch.apply_progress p).stages.length = ch.stages.length := by
  simp [Chapter.apply_progress, length_foldl_listModify]

theorem apply_progress_stages_getD (ch : Chapter) (p i : Nat) (d : Stage)
    (hlen : i < ch.stages.length) :
    (ch.apply_progress p).stages.getD i d =
      if i < p then (ch.stages.getD i d).clear_stage false
      else if p < i ∧ i < 48 then (ch.stages.getD i d).unclear_stage
      else ch.stages.getD i d := by
  simp only [Chapter.apply_progress]
  by_cases h1 : i < p
  · rw [getD_foldl_listModify_mem _ _ _ _ _ (List.mem_range.mpr h1)
        (List.nodup_range p) (by rw [length_foldl_listModify]; exact hlen),
      getD_foldl_listModify_not_mem _ _ _ _ _
        (by intro hm; have := (List.mem_range'_1.mp hm).1; omega)]
    rw [if_pos h1]
  · rw [getD_foldl_listModify_not_mem _ _ _ _ _
      (by intro hm; exact h1 (List.mem_range.mp hm))]
    by_cases h2 : p < i ∧ i < 48
    · rw [getD_foldl_listModify_mem _ _ _ _ _
        (List.mem_range'_1.mpr (by omega)) (List.nodup_range' _ _) hlen]
      rw [if_neg h1, if_pos h2]
    · rw [getD_foldl_listModify_not_mem _ _ _ _ _
        (by intro hm; have := List.mem_range'_1.mp hm; omega)]
      rw [if_neg h1, if_neg h2]

theorem clear_stage_false_treasure (s : Stage) :
    (s.clear_stage false).treasure = s.treasure := rfl

theorem clear_stage_treasure (s : Stage) (b : Bool) :
    (s.clear_stage b).treasure = s.treasure := by
  cases b <;> rfl

theorem clear_stage_itf (s : Stage) (b : Bool) :
    (s.clear_stage b).itf_timed_score = s.itf_timed_score := by
  cases b <;> rfl

/-- C1: for every chapter and every `p` in `[0, 48]`, after
`apply_progress(p)` every stage with index below `p` is cleared, every stage
with index in `(p, 48)` has `clear_times = 0`, stage `p` itself keeps its
previous state, and the `progress` field equals `p`. -/
theorem C1_apply_progress (ch : Chapter) (p : Nat) (hp : p ≤ 48)
    (hlen : ch.stages.length = 51) :
    (ch.apply_progress p).progress = (p : Int) ∧
    (∀ i : Nat, i < p →
      ((ch.apply_progress p).stages.getD i Stage.init).is_cleared = true) ∧
    (∀ i : Nat, p < i → i < 48 →
      ((ch.apply_progress p).stages.getD i Stage.init).clear_times = 0) ∧
    (ch.apply_progress p).stages.getD p Stage.init
      = ch.stages.getD p Stage.init := by
  refine ⟨rfl, ?_, ?_, ?_⟩
  · intro i hi
    rw [apply_progress_stages_getD _ _ _ _ (by omega), if_pos hi]
    simp only [Stage.clear_stage, if_neg (Bool.false_ne_true), Stage.is_cleared,
      decide_eq_true_eq]
    exact lt_max_of_lt_right one_pos
  · intro i hpi hi48
    rw [apply_progress_stages_getD _ _ _ _ (by omega), if_neg (by omega),
      if_pos ⟨hpi, hi48⟩]
    rfl
  · rw [apply_progress_stages_getD _ _ _ _ (by omega), if_neg (by omega),
      if_neg (by omega)]

/-- Witness for C1 at a fresh chapter and `p = 10`. -/
theorem C1_apply_progress_witness :
    ((Chapter.new 0).apply_progress 10).progress = (10 : Int) :=
  (C1_apply_progress (Chapter.new 0) 10 (by norm_num)
    (by simp [Chapter.new])).1

/-- C5: `convert_stage_id` maps `i` to `45 - i` on `[0, 45]`, is the identity
on `{46, 47}`, and is an involution on `[0, 47]`. -/
theorem C5_convert_stage_id (i : Int) (h0 : 0 ≤ i) (h47 : i ≤ 47) :
    (i ≤ 45 → StoryChapters.convert_stage_id i = 45 - i) ∧
    (46 ≤ i → StoryChapters.convert_stage_id i = i) ∧
    StoryChapters.convert_stage_id (StoryChapters.convert_stage_id i) = i := by
  simp only [StoryChapters.convert_stage_id]
  split_ifs <;> omega

/-- Witness for C5 at `i = 3`. -/
theorem C5_convert_stage_id_witness :
    StoryChapters.convert_stage_id (StoryChapters.convert_stage_id 3) = 3 :=
  (C5_convert_stage_id 3 (by norm_num) (by norm_num)).2.2

/-- C9 counterexample: `apply_progress(49)` on a fresh chapter does modify the
stage at index 48 (the loop over `range(progress)` reaches it), contradicting
the claim that no `p ≥ 0` ever touches stages 48-50. -/
theorem C9_counterexample :
    (Chapter.initChapter.apply_progress 49).stages.getD 48 Stage.init ≠
      Chapter.initChapter.stages.getD 48 Stage.init := by decide

/-- C9 (amended to `p ≤ 48`): `apply_progress(p)` leaves the stages at
indices 48 and beyond, the `selected_stage`, every stage's `treasure` and
`itf_timed_score`, and all treasure-chance scalars unchanged; only `progress`
and the `clear_times` of stages 0-47 can change. -/
theorem C9_apply_progress_frame (ch : Chapter) (p : Nat) (hp : p ≤ 48) :
    (ch.apply_progress p).selected_stage = ch.selected_stage ∧
    (ch.apply_progress p).time_until_treasure_chance
      = ch.time_until_treasure_chance ∧
    (ch.apply_progress p).treasure_chance_duration
      = ch.treasure_chance_duration ∧
    (ch.apply_progress p).treasure_chance_value = ch.treasure_chance_value ∧
    (ch.apply_progress p).treasure_chance_stage_id
      = ch.treasure_chance_stage_id ∧
    (ch.apply_progress p).treasure_festival_type
      = ch.treasure_festival_type ∧
    (ch.apply_progress p).stages.length = ch.stages.length ∧
    (∀ i : Nat, 48 ≤ i → (ch.apply_progress p).stages.getD i Stage.init
      = ch.stages.getD i Stage.init) ∧
    (∀ i : Nat,
      ((ch.apply_progress p).stages.getD i Stage.init).treasure
        = (ch.stages.getD i Stage.init).treasure ∧
      ((ch.apply_progress p).stages.getD i Stage.init).itf_timed_score
        = (ch.stages.getD i Stage.init).itf_timed_score) := by
  refine ⟨rfl, rfl, rfl, rfl, rfl, rfl, apply_progress_length ch p, ?_, ?_⟩
  · intro i h48
    rcases Nat.lt_or_ge i ch.stages.length with hlt | hge
    · rw [apply_progress_stages_getD _ _ _ _ hlt, if_neg (by omega),
        if_neg (by omega)]
    · rw [List.getD_eq_default _ _ (by rwa [apply_progress_length]),
        List.getD_eq_default _ _ hge]
  · intro i
    simp only [Chapter.apply_progress]
    constructor
    · rw [getD_foldl_listModify_proj Stage.treasure _
          (fun a => clear_stage_treasure a false),
        getD_foldl_listModify_proj Stage.treasure Stage.unclear_stage
          (fun a => rfl)]
    · rw [getD_foldl_listModify_proj Stage.itf_timed_score _
          (fun a => clear_stage_itf a false),
        getD_foldl_listModify_proj Stage.itf_timed_score Stage.unclear_stage
          (fun a => rfl)]

/-- Witness for the amended C9 at a concrete chapter and `p = 5`. -/
theorem C9_apply_progress_frame_witness :
    ((Chapter.new 7).apply_progress 5).selected_stage
      = (Chapter.new 7).selected_stage :=
  (C9_apply_progress_frame (Chapter.new 7) 5 (by norm_num)).1

/-- C10: `clear_previous_chapters` is a no-op (and raises nothing) for every
chapter id outside the range 1-8, including 0, negative ids and ids above
8. -/
theorem C10_clear_previous_chapters_total (sc : StoryChapters) (cid : Int)
    (h : cid < 1 ∨ 8 < cid) :
    sc.clear_previous_chapters cid = sc := by
  simp only [StoryChapters.clear_previous_chapters]
  split_ifs <;> first | rfl | omega

/-- Witness for C10 at id 42. -/
theorem C10_clear_previous_chapters_total_witness :
    StoryChapters.initStory.clear_previous_chapters 42
      = StoryChapters.initStory :=
  C10_clear_previous_chapters_total StoryChapters.initStory 42
    (Or.inr (by norm_num))

theorem exists_len_ten {α : Type} (l : List α) (h : l.length = 10) :
    ∃ a0 a1 a2 a3 a4 a5 a6 a7 a8 a9 : α,
      l = [a0, a1, a2, a3, a4, a5, a6, a7, a8, a9] := by
  cases l with
  | nil => simp at h
  | cons a0 l =>
  cases l with
  | nil => simp at h
  | cons a1 l =>
  cases l with
  | nil => simp at h
  | cons a2 l =>
  cases l with
  | nil => simp at h
  | cons a3 l =>
  cases l with
  | nil => simp at h
  | cons a4 l =>
  cases l with
  | nil => simp at h
  | cons a5 l =>
  cases l with
  | nil => simp at h
  | cons a6 l =>
  cases l with
  | nil => simp at h
  | cons a7 l =>
  cases l with
  | nil => simp at h
  | cons a8 l =>
  cases l with
  | nil => simp at h
  | cons a9 l =>
  cases l with
  | nil => exact ⟨a0, a1, a2, a3, a4, a5, a6, a7, a8, a9, rfl⟩
  | cons a10 l => simp only [List.length_cons] at h; omega

/-- C6 counterexample: `get_real_chapters` does not return 9 chapters for
every container; a deserialized empty chapter list yields 0 of them. -/
theorem C6_counterexample :
    (StoryChapters.deserialize []).get_real_chapters.length ≠ 9 := by decide

/-- C6 (amended to containers that hold the invariant ten chapters):
`get_real_chapters()` returns exactly 9 chapters; element `r` of the view is
the container's chapter at raw index `realToRaw r`, and modifying the
container at that raw index is the same as modifying the view at `r` — the
functional rendering of the view aliasing the container's chapter objects. -/
theorem C6_get_real_chapters (sc : StoryChapters)
    (h : sc.chapters.length = 10) :
    sc.get_real_chapters.length = 9 ∧
    (∀ r : Nat, r < 9 →
      sc.get_real_chapters.getD r Chapter.initChapter
        = sc.chapters.getD (realToRaw r) Chapter.initChapter) ∧
    (∀ r : Nat, r < 9 → ∀ f : Chapter → Chapter,
      StoryChapters.get_real_chapters ⟨listModify f (realToRaw r) sc.chapters⟩
        = listModify f r sc.get_real_chapters) := by
  obtain ⟨chs⟩ := sc
  simp only at h
  obtain ⟨c0, c1, c2, c3, c4, c5, c6, c7, c8, c9, rfl⟩ := exists_len_ten chs h
  refine ⟨rfl, ?_, ?_⟩
  · intro r hr
    interval_cases r <;> rfl
  · intro r hr f
    interval_cases r <;> rfl

/-- Witness for the amended C6 on the fresh ten-chapter container. -/
theorem C6_get_real_chapters_witness :
    StoryChapters.initStory.get_real_chapters.length = 9 :=
  (C6_get_real_chapters StoryChapters.initStory
    (by simp [StoryChapters.initStory])).1

/-- C4: for every ten-chapter container and every real-chapter id 0-8,
`clear_previous_chapters` replaces exactly the prerequisite real chapters of
the fixed table by their `clear_chapter()` image and leaves every other real
chapter — the chapter `chapter_id` itself included — unchanged. -/
theorem C4_clear_previous_chapters (sc : StoryChapters)
    (h : sc.chapters.length = 10) (cid : Int) (h0 : 0 ≤ cid) (h8 : cid ≤ 8) :
    ∀ r : Nat, r < 9 →
      (sc.clear_previous_chapters cid).get_real_chapters.getD r
          Chapter.initChapter
        = if r ∈ prereqList cid then
            (sc.get_real_chapters.getD r Chapter.initChapter).clear_chapter
          else sc.get_real_chapters.getD r Chapter.initChapter := by
  obtain ⟨chs⟩ := sc
  simp only at h
  obtain ⟨c0, c1, c2, c3, c4, c5, c6, c7, c8, c9, rfl⟩ := exists_len_ten chs h
  intro r hr
  interval_cases cid <;> interval_cases r <;> rfl

/-- Witness for C4: `clear_previous_chapters(7)` on the fresh container and
real chapter 0. -/
theorem C4_clear_previous_chapters_witness :
    (StoryChapters.initStory.clear_previous_chapters 7).get_real_chapters.getD
        0 Chapter.initChapter
      = if 0 ∈ prereqList 7 then
          (StoryChapters.initStory.get_real_chapters.getD 0
            Chapter.initChapter).clear_chapter
        else StoryChapters.initStory.get_real_chapters.getD 0
          Chapter.initChapter :=
  C4_clear_previous_chapters StoryChapters.initStory
    (by simp [StoryChapters.initStory]) 7 (by norm_num) (by norm_num) 0
    (by norm_num)

theorem length_readStagesClearTimes (n : Nat) (s : List Nat)
    (sts : List Stage) (rest : List Nat)
    (h : readStagesClearTimes n s = some (sts, rest)) : sts.length = n := by
  induction n generalizing s sts rest with
  | zero =>
    simp only [readStagesClearTimes] at h
    injection h with h
    injection h with h1 h2
    simp [← h1]
  | succ n ih =>
    simp only [readStagesClearTimes] at h
    cases h1 : Stage.read_clear_times s with
    | none => rw [h1] at h; exact absurd h (by simp)
    | some p =>
      obtain ⟨st, s1⟩ := p
      rw [h1] at h
      dsimp only at h
      cases h2 : readStagesClearTimes n s1 with
      | none => rw [h2] at h; exact absurd h (by simp)
      | some q =>
        obtain ⟨sts1, s2⟩ := q
        rw [h2] at h
        dsimp only at h
        injection h with h
        injection h with h3 h4
        rw [← h3]
        simp [ih _ _ _ h2]

/-- C7 counterexample: `Chapter.deserialize` of the empty dict rebuilds the
stage list from the data's (empty) list, so `len(stages)` is 0, not 51. -/
theorem C7_counterexample :
    (Chapter.deserialize ChapterData.empty).stages.length ≠ 51 := by decide

/-- C7 (amended): a chapter has 51 stages after construction and after a
successful clear-times decode, every mutation operation (`clear_stage`,
`set_treasure`, `apply_progress`, `clear_chapter`) preserves the 51-stage
count, and `Chapter.deserialize` yields exactly as many stages as the
serialized data holds — 51 only when the data has 51 stage entries. -/
theorem C7_stage_count :
    (∀ sel : Int, (Chapter.new sel).stages.length = 51) ∧
    (∀ ch ch1 : Chapter, ∀ s rest : List Nat,
      ch.read_clear_times s = some (ch1, rest) → ch1.stages.length = 51) ∧
    (∀ ch : Chapter, ∀ i : Nat, ∀ inc ov : Bool, ch.stages.length = 51 →
      (ch.clear_stage i inc ov).stages.length = 51) ∧
    (∀ ch : Chapter, ∀ i : Nat, ∀ t : Int, ch.stages.length = 51 →
      (ch.set_treasure i t).stages.length = 51) ∧
    (∀ ch : Chapter, ∀ p : Nat, ch.stages.length = 51 →
      (ch.apply_progress p).stages.length = 51) ∧
    (∀ ch : Chapter, ch.stages.length = 51 →
      ch.clear_chapter.stages.length = 51) ∧
    (∀ d : ChapterData,
      (Chapter.deserialize d).stages.length = d.stages.length) := by
  refine ⟨?_, ?_, ?_, ?_, ?_, ?_, ?_⟩
  · intro sel; simp [Chapter.new]
  · intro ch ch1 s rest h
    simp only [Chapter.read_clear_times] at h
    cases h1 : readStagesClearTimes 51 s with
    | none => rw [h1] at h; exact absurd h (by simp)
    | some p =>
      rw [h1] at h
      injection h with h
      injection h with h2 h3
      rw [← h2]
      exact length_readStagesClearTimes 51 s p.1 p.2 (by rw [h1])
  · intro ch i inc ov h; simpa [Chapter.clear_stage, length_listModify]
  · intro ch i t h; simpa [Chapter.set_treasure, length_listModify]
  · intro ch p h; rw [apply_progress_length]; exact h
  · intro ch h; rw [Chapter.clear_chapter, apply_progress_length]; exact h
  · intro d; simp [Chapter.deserialize]

/-- Witness for C7: a mutation on a freshly constructed chapter keeps 51
stages. -/
theorem C7_stage_count_witness :
    ((Chapter.new 0).clear_stage 3 false false).stages.length = 51 :=
  C7_stage_count.2.2.1 (Chapter.new 0) 3 false false (by simp [Chapter.new])

/-! Lemmas for the byte-level decode of `StoryChapters.read` and its
round trip with `StoryChapters.write` (claims C2 and C3). -/

theorem toSigned32_zero : toSigned32 0 = 0 := by norm_num [toSigned32]

theorem writeInt_toSigned32 (b0 b1 b2 b3 : Nat) (h0 : b0 < 256)
    (h1 : b1 < 256) (h2 : b2 < 256) (h3 : b3 < 256) :
    writeInt (toSigned32 (b0 + 256 * b1 + 65536 * b2 + 16777216 * b3))
      = [b0, b1, b2, b3] := by
  have key : ((toSigned32 (b0 + 256 * b1 + 65536 * b2 + 16777216 * b3))
      % 4294967296).toNat = b0 + 256 * b1 + 65536 * b2 + 16777216 * b3 := by
    unfold toSigned32
    split <;> omega
  simp only [writeInt, key, List.cons.injEq, and_true]
  exact ⟨by omega, by omega, by omega, by omega⟩

theorem readInt_drop (s s1 : List Nat) (v : Int)
    (h : readInt s = some (v, s1)) : s1 = s.drop 4 := by
  rcases s with _ | ⟨b0, _ | ⟨b1, _ | ⟨b2, _ | ⟨b3, rest⟩⟩⟩⟩ <;>
    simp only [readInt, Option.some.injEq, Prod.mk.injEq] at h <;>
    try exact Option.noConfusion h
  obtain ⟨hv, hs⟩ := h
  subst hs
  rfl

theorem readInt_write (s s1 : List Nat) (v : Int)
    (h : readInt s = some (v, s1)) (hb : ∀ b ∈ s, b < 256) :
    writeInt v ++ s1 = s := by
  rcases s with _ | ⟨b0, _ | ⟨b1, _ | ⟨b2, _ | ⟨b3, rest⟩⟩⟩⟩ <;>
    simp only [readInt, Option.some.injEq, Prod.mk.injEq] at h <;>
    try exact Option.noConfusion h
  obtain ⟨hv, hs⟩ := h
  subst hs
  subst hv
  rw [writeInt_toSigned32 b0 b1 b2 b3 (hb b0 (by simp)) (hb b1 (by simp))
    (hb b2 (by simp)) (hb b3 (by simp))]
  rfl

theorem readIntList_facts (n : Nat) :
    ∀ (s : List Nat) (vs : List Int) (r : List Nat),
      readIntList n s = some (vs, r) →
      vs.length = n ∧ r = s.drop (4 * n) ∧
      ((∀ b ∈ s, b < 256) → (vs.map writeInt).flatten ++ r = s) := by
  induction n with
  | zero =>
    intro s vs r h
    simp only [readIntList] at h
    injection h with h
    injection h with h1 h2
    subst h1
    subst h2
    exact ⟨rfl, by simp, fun _ => by simp⟩
  | succ n ih =>
    intro s vs r h
    simp only [readIntList] at h
    cases h1 : readInt s with
    | none => rw [h1] at h; exact absurd h (by simp)
    | some p =>
      obtain ⟨v, s1⟩ := p
      rw [h1] at h
      dsimp only at h
      cases h2 : readIntList n s1 with
      | none => rw [h2] at h; exact absurd h (by simp)
      | some q =>
        obtain ⟨vs1, s2⟩ := q
        rw [h2] at h
        dsimp only at h
        injection h with h
        injection h with h3 h4
        subst h3
        subst h4
        obtain ⟨hl, hd, hw⟩ := ih s1 vs1 s2 h2
        refine ⟨by simp [hl], ?_, ?_⟩
        · rw [hd, readInt_drop s s1 v h1, List.drop_drop]
          congr 1
          omega
        · intro hb
          have step := readInt_write s s1 v h1 hb
          have hb1 : ∀ b ∈ s1, b < 256 := fun b hbm =>
            hb b (by rw [← step]; exact List.mem_append_right _ hbm)
          calc ((v :: vs1).map writeInt).flatten ++ s2
              = writeInt v ++ ((vs1.map writeInt).flatten ++ s2) := by
                simp [List.append_assoc]
            _ = writeInt v ++ s1 := by rw [hw hb1]
            _ = s := step

theorem readIntBlocks_facts (m n : Nat) :
    ∀ (s : List Nat) (bs : List (List Int)) (r : List Nat),
      readIntBlocks m n s = some (bs, r) →
      bs.length = m ∧ (∀ b ∈ bs, b.length = n) ∧ r = s.drop (4 * n * m) ∧
      ((∀ b ∈ s, b < 256) →
        (bs.map (fun vs => (vs.map writeInt).flatten)).flatten ++ r = s) := by
  induction m with
  | zero =>
    intro s bs r h
    simp only [readIntBlocks] at h
    injection h with h
    injection h with h1 h2
    subst h1
    subst h2
    exact ⟨rfl, by simp, by simp, fun _ => by simp⟩
  | succ m ih =>
    intro s bs r h
    simp only [readIntBlocks] at h
    cases h1 : readIntList n s with
    | none => rw [h1] at h; exact absurd h (by simp)
    | some p =>
      obtain ⟨vs, s1⟩ := p
      rw [h1] at h
      dsimp only at h
      cases h2 : readIntBlocks m n s1 with
      | none => rw [h2] at h; exact absurd h (by simp)
      | some q =>
        obtain ⟨bs1, s2⟩ := q
        rw [h2] at h
        dsimp only at h
        injection h with h
        injection h with h3 h4
        subst h3
        subst h4
        obtain ⟨hvl, hvd, hvw⟩ := readIntList_facts n s vs s1 h1
        obtain ⟨hl, hbn, hd, hw⟩ := ih s1 bs1 s2 h2
        refine ⟨by simp [hl], ?_, ?_, ?_⟩
        · intro b hbm
          rcases List.mem_cons.mp hbm with rfl | hbm'
          · exact hvl
          · exact hbn b hbm'
        · rw [hd, hvd, List.drop_drop]
          congr 1
          ring
        · intro hb
          have hb1 : ∀ b ∈ s1, b < 256 := fun b hbm =>
            hb b (by rw [← hvw hb]; exact List.mem_append_right _ hbm)
          calc ((vs :: bs1).map (fun l => (l.map writeInt).flatten)).flatten ++ s2
              = (vs.map writeInt).flatten
                  ++ ((bs1.map (fun l => (l.map writeInt).flatten)).flatten ++ s2) := by
                simp [List.append_assoc]
            _ = (vs.map writeInt).flatten ++ s1 := by rw [hw hb1]
            _ = s := hvw hb

theorem readSelectedPass_eq (n : Nat) : ∀ s : List Nat,
    readSelectedPass n s
      = (readIntList n s).map (fun p => (p.1.map Chapter.new, p.2)) := by
  induction n with
  | zero => intro s; rfl
  | succ n ih =>
    intro s
    simp only [readSelectedPass, readIntList, Chapter.read_selected_stage]
    cases readInt s with
    | none => rfl
    | some p =>
      obtain ⟨v, s1⟩ := p
      dsimp only
      rw [ih s1]
      cases readIntList n s1 with
      | none => rfl
      | some q => obtain ⟨vs, s2⟩ := q; rfl

theorem readProgressPass_eq : ∀ (cs : List Chapter) (s : List Nat),
    readProgressPass cs s
      = (readIntList cs.length s).map
        (fun p => (List.zipWith setProgress cs p.1, p.2)) := by
  intro cs
  induction cs with
  | nil => intro s; rfl
  | cons c cs ih =>
    intro s
    simp only [readProgressPass, List.length_cons, readIntList,
      Chapter.read_progress]
    cases readInt s with
    | none => rfl
    | some p =>
      obtain ⟨v, s1⟩ := p
      dsimp only
      rw [ih s1]
      cases readIntList cs.length s1 with
      | none => rfl
      | some q => obtain ⟨vs, s2⟩ := q; rfl

theorem readStagesClearTimes_eq (n : Nat) : ∀ s : List Nat,
    readStagesClearTimes n s
      = (readIntList n s).map (fun p => (p.1.map stageOfClear, p.2)) := by
  induction n with
  | zero => intro s; rfl
  | succ n ih =>
    intro s
    simp only [readStagesClearTimes, readIntList, Stage.read_clear_times]
    cases readInt s with
    | none => rfl
    | some p =>
      obtain ⟨v, s1⟩ := p
      dsimp only
      rw [ih s1]
      cases readIntList n s1 with
      | none => rfl
      | some q => obtain ⟨vs, s2⟩ := q; rfl

theorem readClearTimesPass_eq : ∀ (cs : List Chapter) (s : List Nat),
    readClearTimesPass cs s
      = (readIntBlocks cs.length 51 s).map
        (fun p => (List.zipWith setStages cs p.1, p.2)) := by
  intro cs
  induction cs with
  | nil => intro s; rfl
  | cons c cs ih =>
    intro s
    simp only [readClearTimesPass, List.length_cons, readIntBlocks,
      Chapter.read_clear_times]
    rw [readStagesClearTimes_eq 51 s]
    cases readIntList 51 s with
    | none => rfl
    | some p =>
      obtain ⟨vs, s1⟩ := p
      simp only [Option.map_some']
      rw [ih s1]
      cases readIntBlocks cs.length 51 s1 with
      | none => rfl
      | some q => obtain ⟨bs, s2⟩ := q; rfl

theorem readTreasureList_eq : ∀ (sl : List Stage) (s : List Nat),
    readTreasureList sl s
      = (readIntList sl.length s).map
        (fun p => (List.zipWith setStageTreasure sl p.1, p.2)) := by
  intro sl
  induction sl with
  | nil => intro s; rfl
  | cons st sl ih =>
    intro s
    simp only [readTreasureList, List.length_cons, readIntList,
      Stage.read_treasure]
    cases readInt s with
    | none => rfl
    | some p =>
      obtain ⟨v, s1⟩ := p
      dsimp only
      rw [ih s1]
      cases readIntList sl.length s1 with
      | none => rfl
      | some q => obtain ⟨vs, s2⟩ := q; rfl

theorem read_treasure_eq (c : Chapter) (s : List Nat)
    (h : 49 ≤ c.stages.length) :
    c.read_treasure s
      = (readIntList 49 s).map (fun p => (setTreasures c p.1, p.2)) := by
  simp only [Chapter.read_treasure, Chapter.get_treasure_stages]
  rw [readTreasureList_eq]
  have hl : (c.stages.take 49).length = 49 := by
    rw [List.length_take]
    omega
  rw [hl]
  cases readIntList 49 s with
  | none => rfl
  | some p => obtain ⟨vs, s1⟩ := p; rfl

theorem readTreasurePass_eq : ∀ (cs : List Chapter) (s : List Nat),
    (∀ c ∈ cs, 49 ≤ c.stages.length) →
    readTreasurePass cs s
      = (readIntBlocks cs.length 49 s).map
        (fun p => (List.zipWith setTreasures cs p.1, p.2)) := by
  intro cs
  induction cs with
  | nil => intro s _; rfl
  | cons c cs ih =>
    intro s h
    simp only [readTreasurePass, List.length_cons, readIntBlocks]
    rw [read_treasure_eq c s (h c (List.mem_cons_self c cs))]
    cases readIntList 49 s with
    | none => rfl
    | some p =>
      obtain ⟨vs, s1⟩ := p
      simp only [Option.map_some']
      rw [ih s1 (fun c' hc' => h c' (List.mem_cons_of_mem _ hc'))]
      cases readIntBlocks cs.length 49 s1 with
      | none => rfl
      | some q => obtain ⟨bs, s2⟩ := q; rfl

theorem assemble_head (a b : Int) (c d : List Int) :
    setTreasures (setStages (setProgress (Chapter.new a) b) c) d
      = specChapter a b c d := by
  simp only [setTreasures, setStages, setProgress, Chapter.new, specChapter,
    specStages]
  have hfun : (fun x y => setStageTreasure (stageOfClear x) y)
      = stageOfClearTreasure := by
    funext x y
    rfl
  rw [← List.map_take, ← List.map_drop, List.zipWith_map_left, hfun]

theorem quadAssemble : ∀ (sel prog : List Int) (cts trs : List (List Int)),
    List.zipWith setTreasures
      (List.zipWith setStages
        (List.zipWith setProgress (sel.map Chapter.new) prog) cts) trs
      = ((sel.zip prog).zip (cts.zip trs)).map
        (fun p => specChapter p.1.1 p.1.2 p.2.1 p.2.2) := by
  intro sel
  induction sel with
  | nil => intro prog cts trs; rfl
  | cons a sel ih =>
    intro prog cts trs
    cases prog with
    | nil => rfl
    | cons b prog =>
      cases cts with
      | nil => rfl
      | cons c cts =>
        cases trs with
        | nil => rfl
        | cons d trs =>
          simp only [List.map_cons, List.zip_cons_cons,
            List.zipWith_cons_cons]
          rw [ih prog cts trs, assemble_head]

theorem stages_length_setStages (ys : List Chapter) :
    ∀ cts : List (List Int), (∀ l ∈ cts, l.length = 51) →
    ∀ c ∈ List.zipWith setStages ys cts, 49 ≤ c.stages.length := by
  induction ys with
  | nil => intro cts _ c hc; simp at hc
  | cons y ys ih =>
    intro cts h c hc
    cases cts with
    | nil => simp at hc
    | cons l ls =>
      rw [List.zipWith_cons_cons] at hc
      rcases List.mem_cons.mp hc with rfl | hc'
      · simp only [setStages, List.length_map]
        rw [h l (List.mem_cons_self _ _)]
        omega
      · exact ih ls (fun l' hl' => h l' (List.mem_cons_of_mem _ hl')) c hc'

/-- Base decode of `StoryChapters.read` agrees with the column-major
reference decoder everywhere. -/
theorem read_eq_spec (s : List Nat) :
    StoryChapters.read s = specReadColumnMajor s := by
  unfold StoryChapters.read specReadColumnMajor
  rw [readSelectedPass_eq 10 s]
  cases h1 : readIntList 10 s with
  | none => rfl
  | some p1 =>
    obtain ⟨sel, s1⟩ := p1
    obtain ⟨hsel, -, -⟩ := readIntList_facts 10 s sel s1 h1
    simp only [Option.map_some']
    rw [readProgressPass_eq, List.length_map, hsel]
    cases h2 : readIntList 10 s1 with
    | none => rfl
    | some p2 =>
      obtain ⟨prog, s2⟩ := p2
      obtain ⟨hprog, -, -⟩ := readIntList_facts 10 s1 prog s2 h2
      simp only [Option.map_some']
      rw [readClearTimesPass_eq, List.length_zipWith, List.length_map, hsel,
        hprog, Nat.min_self]
      cases h3 : readIntBlocks 10 51 s2 with
      | none => rfl
      | some p3 =>
        obtain ⟨cts, s3⟩ := p3
        obtain ⟨hcts, hctsn, -, -⟩ := readIntBlocks_facts 10 51 s2 cts s3 h3
        simp only [Option.map_some']
        rw [readTreasurePass_eq _ _
            (stages_length_setStages _ cts hctsn),
          List.length_zipWith, List.length_zipWith, List.length_map, hsel,
          hprog, Nat.min_self, hcts, Nat.min_self]
        cases h4 : readIntBlocks 10 49 s3 with
        | none => rfl
        | some p4 =>
          obtain ⟨trs, s4⟩ := p4
          simp only [Option.map_some']
          rw [quadAssemble]

theorem map_clear_zipWith : ∀ x y : List Int, x.length ≤ y.length →
    (List.zipWith stageOfClearTreasure x y).map Stage.clear_times = x := by
  intro x
  induction x with
  | nil => intro y _; rfl
  | cons a x ih =>
    intro y h
    cases y with
    | nil => simp at h
    | cons b y =>
      simp only [List.zipWith_cons_cons, List.map_cons]
      rw [ih y (by simpa using h)]
      rfl

theorem map_treasure_zipWith : ∀ x y : List Int, y.length ≤ x.length →
    (List.zipWith stageOfClearTreasure x y).map Stage.treasure = y := by
  intro x
  induction x with
  | nil =>
    intro y h
    cases y with
    | nil => rfl
    | cons b y => simp at h
  | cons a x ih =>
    intro y h
    cases y with
    | nil => rfl
    | cons b y =>
      simp only [List.zipWith_cons_cons, List.map_cons]
      rw [ih y (by simpa using h)]
      rfl

theorem specStages_clear_times (c d : List Int) (hc : c.length = 51)
    (hd : d.length = 49) :
    (specStages c d).map Stage.clear_times = c := by
  simp only [specStages, List.map_append]
  rw [map_clear_zipWith _ _ (by rw [List.length_take]; omega), List.map_map]
  have hid : (Stage.clear_times ∘ stageOfClear) = id := by
    funext v
    rfl
  rw [hid, List.map_id, List.take_append_drop]

theorem specChapter_write_clear (a b : Int) (c d : List Int)
    (hc : c.length = 51) (hd : d.length = 49) :
    (specChapter a b c d).write_clear_times = (c.map writeInt).flatten := by
  have hfun : (fun st => writeInt st.clear_times)
      = (writeInt ∘ Stage.clear_times) := rfl
  simp only [Chapter.write_clear_times, hfun]
  rw [← List.map_map]
  have : (specChapter a b c d).stages = specStages c d := rfl
  rw [this, specStages_clear_times c d hc hd]

theorem specChapter_write_treasure (a b : Int) (c d : List Int)
    (hc : c.length = 51) (hd : d.length = 49) :
    (specChapter a b c d).write_treasure = (d.map writeInt).flatten := by
  have hfun : (fun st => writeInt st.treasure)
      = (writeInt ∘ Stage.treasure) := rfl
  simp only [Chapter.write_treasure, Chapter.get_treasure_stages, hfun]
  have hst : (specChapter a b c d).stages = specStages c d := rfl
  rw [hst]
  have hzl : (List.zipWith stageOfClearTreasure (c.take 49) d).length = 49 := by
    rw [List.length_zipWith, List.length_take]
    omega
  rw [show specStages c d
      = List.zipWith stageOfClearTreasure (c.take 49) d
        ++ (c.drop 49).map stageOfClear from rfl]
  rw [List.take_left' hzl, ← List.map_map,
    map_treasure_zipWith _ _ (by rw [List.length_take]; omega)]

theorem write_assembled : ∀ (sel prog : List Int) (cts trs : List (List Int)),
    prog.length = sel.length → cts.length = sel.length →
    trs.length = sel.length →
    (∀ l ∈ cts, l.length = 51) → (∀ l ∈ trs, l.length = 49) →
    ((((sel.zip prog).zip (cts.zip trs)).map
        (fun p => specChapter p.1.1 p.1.2 p.2.1 p.2.2)).map
        (fun ch => writeInt ch.selected_stage) = sel.map writeInt) ∧
    ((((sel.zip prog).zip (cts.zip trs)).map
        (fun p => specChapter p.1.1 p.1.2 p.2.1 p.2.2)).map
        (fun ch => writeInt ch.progress) = prog.map writeInt) ∧
    ((((sel.zip prog).zip (cts.zip trs)).map
        (fun p => specChapter p.1.1 p.1.2 p.2.1 p.2.2)).map
        Chapter.write_clear_times
      = cts.map (fun l => (l.map writeInt).flatten)) ∧
    ((((sel.zip prog).zip (cts.zip trs)).map
        (fun p => specChapter p.1.1 p.1.2 p.2.1 p.2.2)).map
        Chapter.write_treasure
      = trs.map (fun l => (l.map writeInt).flatten)) := by
  intro sel
  induction sel with
  | nil =>
    intro prog cts trs hp hc ht _ _
    obtain rfl : prog = [] := List.length_eq_zero.mp (by rw [hp]; rfl)
    obtain rfl : cts = [] := List.length_eq_zero.mp (by rw [hc]; rfl)
    obtain rfl : trs = [] := List.length_eq_zero.mp (by rw [ht]; rfl)
    exact ⟨rfl, rfl, rfl, rfl⟩
  | cons a sel ih =>
    intro prog cts trs hp hc ht hcn htn
    cases prog with
    | nil => simp at hp
    | cons b prog =>
      cases cts with
      | nil => simp at hc
      | cons c cts =>
        cases trs with
        | nil => simp at ht
        | cons d trs =>
          obtain ⟨m1, m2, m3, m4⟩ := ih prog cts trs (by simpa using hp)
            (by simpa using hc) (by simpa using ht)
            (fun l hl => hcn l (List.mem_cons_of_mem _ hl))
            (fun l hl => htn l (List.mem_cons_of_mem _ hl))
          simp only [List.zip_cons_cons, List.map_cons]
          refine ⟨?_, ?_, ?_, ?_⟩
          · rw [m1]; rfl
          · rw [m2]; rfl
          · rw [m3, specChapter_write_clear a b c d
              (hcn c (List.mem_cons_self _ _)) (htn d (List.mem_cons_self _ _))]
          · rw [m4, specChapter_write_treasure a b c d
              (hcn c (List.mem_cons_self _ _)) (htn d (List.mem_cons_self _ _))]

/-- C2: when the base read succeeds on a byte stream, re-encoding the
resulting container with `write` and no intervening mutation reproduces the
consumed bytes exactly. -/
theorem C2_write_roundtrip (bytes : List Nat) (sc : StoryChapters)
    (rest : List Nat) (hb : ∀ b ∈ bytes, b < 256)
    (h : StoryChapters.read bytes = some (sc, rest)) :
    sc.write ++ rest = bytes := by
  rw [read_eq_spec] at h
  unfold specReadColumnMajor at h
  cases h1 : readIntList 10 bytes with
  | none => rw [h1] at h; exact absurd h (by simp)
  | some p1 =>
    obtain ⟨sel, s1⟩ := p1
    rw [h1] at h
    dsimp only at h
    cases h2 : readIntList 10 s1 with
    | none => rw [h2] at h; exact absurd h (by simp)
    | some p2 =>
      obtain ⟨prog, s2⟩ := p2
      rw [h2] at h
      dsimp only at h
      cases h3 : readIntBlocks 10 51 s2 with
      | none => rw [h3] at h; exact absurd h (by simp)
      | some p3 =>
        obtain ⟨cts, s3⟩ := p3
        rw [h3] at h
        dsimp only at h
        cases h4 : readIntBlocks 10 49 s3 with
        | none => rw [h4] at h; exact absurd h (by simp)
        | some p4 =>
          obtain ⟨trs, s4⟩ := p4
          rw [h4] at h
          dsimp only at h
          injection h with h
          injection h with hsc hrest
          subst hsc
          subst hrest
          obtain ⟨hsel, -, hw1⟩ := readIntList_facts 10 bytes sel s1 h1
          have hb1 : ∀ b ∈ s1, b < 256 := fun b hbm =>
            hb b (by rw [← hw1 hb]; exact List.mem_append_right _ hbm)
          obtain ⟨hprog, -, hw2⟩ := readIntList_facts 10 s1 prog s2 h2
          have hb2 : ∀ b ∈ s2, b < 256 := fun b hbm =>
            hb1 b (by rw [← hw2 hb1]; exact List.mem_append_right _ hbm)
          obtain ⟨hcts, hctsn, -, hw3⟩ := readIntBlocks_facts 10 51 s2 cts s3 h3
          have hb3 : ∀ b ∈ s3, b < 256 := fun b hbm =>
            hb2 b (by rw [← hw3 hb2]; exact List.mem_append_right _ hbm)
          obtain ⟨htrs, htrsn, -, hw4⟩ := readIntBlocks_facts 10 49 s3 trs s4 h4
          obtain ⟨m1, m2, m3, m4⟩ := write_assembled sel prog cts trs
            (by rw [hprog, hsel]) (by rw [hcts, hsel]) (by rw [htrs, hsel])
            hctsn htrsn
          simp only [StoryChapters.write]
          rw [m1, m2, m3, m4]
          simp only [List.append_assoc]
          rw [hw4 hb3, hw3 hb2, hw2 hb1, hw1 hb]

/-- C3: the base read decodes exactly ten chapters in the column-major field
order of the spec — the `selected_stage` of all ten chapters, then their
`progress`, then 51 per-stage clear times per chapter, then treasures for
the first 49 stages of each — and consumes nothing else: it agrees with the
reference decoder `specReadColumnMajor` on every stream, and a successful
read yields ten chapters and leaves exactly the bytes beyond the 4080
consumed ones. -/
theorem C3_read_column_major (s : List Nat) :
    StoryChapters.read s = specReadColumnMajor s ∧
    (∀ (sc : StoryChapters) (rest : List Nat),
      StoryChapters.read s = some (sc, rest) →
      sc.chapters.length = 10 ∧ rest = s.drop 4080) := by
  refine ⟨read_eq_spec s, ?_⟩
  intro sc rest h
  rw [read_eq_spec] at h
  unfold specReadColumnMajor at h
  cases h1 : readIntList 10 s with
  | none => rw [h1] at h; exact absurd h (by simp)
  | some p1 =>
    obtain ⟨sel, s1⟩ := p1
    rw [h1] at h
    dsimp only at h
    cases h2 : readIntList 10 s1 with
    | none => rw [h2] at h; exact absurd h (by simp)
    | some p2 =>
      obtain ⟨prog, s2⟩ := p2
      rw [h2] at h
      dsimp only at h
      cases h3 : readIntBlocks 10 51 s2 with
      | none => rw [h3] at h; exact absurd h (by simp)
      | some p3 =>
        obtain ⟨cts, s3⟩ := p3
        rw [h3] at h
        dsimp only at h
        cases h4 : readIntBlocks 10 49 s3 with
        | none => rw [h4] at h; exact absurd h (by simp)
        | some p4 =>
          obtain ⟨trs, s4⟩ := p4
          rw [h4] at h
          dsimp only at h
          injection h with h
          injection h with hsc hrest
          subst hsc
          subst hrest
          obtain ⟨hsel, hd1, -⟩ := readIntList_facts 10 s sel s1 h1
          obtain ⟨hprog, hd2, -⟩ := readIntList_facts 10 s1 prog s2 h2
          obtain ⟨hcts, -, hd3, -⟩ := readIntBlocks_facts 10 51 s2 cts s3 h3
          obtain ⟨htrs, -, hd4, -⟩ := readIntBlocks_facts 10 49 s3 trs s4 h4
          constructor
          · simp only [List.length_map, List.length_zip, hsel, hprog, hcts,
              htrs, Nat.min_self]
          · rw [hd4, hd3, hd2, hd1, List.drop_drop, List.drop_drop,
              List.drop_drop]

theorem readIntList_replicate_zero (n k : Nat) (hk : k = 4 * n) :
    ∀ t : List Nat, readIntList n (List.replicate k 0 ++ t)
      = some (List.replicate n 0, t) := by
  subst hk
  induction n with
  | zero => intro t; simp [readIntList]
  | succ n ih =>
    intro t
    have hsplit : List.replicate (4 * (n + 1)) (0 : Nat) ++ t
        = 0 :: 0 :: 0 :: 0 :: (List.replicate (4 * n) 0 ++ t) := by
      rw [show 4 * (n + 1) = 4 + 4 * n from by ring, List.replicate_add]
      rfl
    rw [hsplit]
    simp only [readIntList, readInt, ih t]
    norm_num [toSigned32, List.replicate_succ]

theorem readIntBlocks_replicate_zero (m n k : Nat) (hk : k = 4 * n * m) :
    ∀ t : List Nat, readIntBlocks m n (List.replicate k 0 ++ t)
      = some (List.replicate m (List.replicate n 0), t) := by
  subst hk
  induction m with
  | zero => intro t; simp [readIntBlocks]
  | succ m ih =>
    intro t
    have hsplit : List.replicate (4 * n * (m + 1)) (0 : Nat) ++ t
        = List.replicate (4 * n) 0 ++ (List.replicate (4 * n * m) 0 ++ t) := by
      rw [show 4 * n * (m + 1) = 4 * n + 4 * n * m from by ring,
        List.replicate_add, List.append_assoc]
    rw [hsplit]
    simp only [readIntBlocks]
    rw [readIntList_replicate_zero n (4 * n) rfl]
    dsimp only
    rw [ih t]
    dsimp only
    rw [List.replicate_succ]

/-- Decode of the all-zero 4080-byte stream: ten fresh chapters and an empty
remainder. -/
theorem read_replicate_zero :
    StoryChapters.read (List.replicate 4080 (0 : Nat))
      = some (⟨List.replicate 10 (Chapter.new 0)⟩, []) := by
  have hsplit : List.replicate 4080 (0 : Nat)
      = List.replicate 40 0 ++ (List.replicate 40 0
        ++ (List.replicate 2040 0 ++ (List.replicate 1960 0 ++ []))) := by
    simp only [List.append_nil, ← List.replicate_add]
  rw [read_eq_spec]
  unfold specReadColumnMajor
  rw [hsplit]
  rw [readIntList_replicate_zero 10 40 (by norm_num)]
  dsimp only
  rw [readIntList_replicate_zero 10 40 (by norm_num)]
  dsimp only
  rw [readIntBlocks_replicate_zero 10 51 2040 (by norm_num)]
  dsimp only
  rw [readIntBlocks_replicate_zero 10 49 1960 (by norm_num)]
  dsimp only
  decide

/-- Witness for C2 at the all-zero 4080-byte stream. -/
theorem C2_write_roundtrip_witness :
    StoryChapters.write ⟨List.replicate 10 (Chapter.new 0)⟩ ++ ([] : List Nat)
      = List.replicate 4080 (0 : Nat) :=
  C2_write_roundtrip (List.replicate 4080 0)
    ⟨List.replicate 10 (Chapter.new 0)⟩ []
    (fun b hb => by rw [List.eq_of_mem_replicate hb]; norm_num)
    read_replicate_zero

/-- Witness for C3 at the all-zero 4080-byte stream. -/
theorem C3_read_column_major_witness :
    (⟨List.replicate 10 (Chapter.new 0)⟩ : StoryChapters).chapters.length = 10
      ∧ ([] : List Nat) = (List.replicate 4080 (0 : Nat)).drop 4080 :=
  (C3_read_column_major (List.replicate 4080 0)).2
    ⟨List.replicate 10 (Chapter.new 0)⟩ [] read_replicate_zero

/-- C8 (code bug): the parse / to_data round trip fails. `CSV.to_data`
serializes each cell with `str(item)` where `item` is a `Cell`, whose
`__str__` is the repr `Cell(<data>)`, not the cell's text; re-parsing
therefore yields the wrapped texts. On input `a,b` the first parse gives
`[[a, b]]`, but parsing `to_data` of it gives `[[Cell(a), Cell(b)]]`. -/
theorem C8_roundtrip_fails :
    CSVparse ',' true true ['a', ',', 'b'] = [[['a'], ['b']]] ∧
    CSVparse ',' true true
        (CSVtoData ',' (CSVparse ',' true true ['a', ',', 'b']))
      = [[['C', 'e', 'l', 'l', '(', 'a', ')'],
          ['C', 'e', 'l', 'l', '(', 'b', ')']]] ∧
    CSVparse ',' true true
        (CSVtoData ',' (CSVparse ',' true true ['a', ',', 'b']))
      ≠ CSVparse ',' true true ['a', ',', 'b'] := by
  exact ⟨by decide, by decide, by decide⟩

end BCSFE
